import Mathlib

/-!
Verification development for the fastETL bulk-replication module
(src/custom_functions/fast_etl.py).

The Python functions are shallowly embedded as pure Lean functions.
Database I/O is modelled explicitly:
  * a source result set is a Lean list of rows;
  * cursor fetches become list operations (take/drop/filter);
  * destination writes accumulate in a list representing the committed
    destination content;
  * read/write exceptions raised by the driver are injected through
    boolean failure oracles, indexed by the interval start key;
  * wall-clock sleeps and progress printing are not modelled (they do
    not affect data flow).
-/

namespace FastETL

/-! ### Model of the chunked cursor copy loop of copy_db_to_db

Mirrors fast_etl.py lines 321-340: after the optional truncate, the
code executes the SELECT, fetches up to chunksize rows, and loops:
executemany the fetched rows, add to rows_inserted, fetch again;
after the loop a single destination_conn.commit() is issued.  The
event trace records each executemany call and each commit call made
by the download loop. -/

inductive DbEvent : Type where
  | exec (n : Nat)
  | commit
deriving DecidableEq, Repr

/-- Result of the chunked copy: final destination content, the counter
rows_inserted, and the trace of executemany/commit events. -/
structure DbCopyResult (α : Type) : Type where
  dest : List α
  rowsInserted : Nat
  events : List DbEvent
deriving DecidableEq, Repr

/-- The fetch/insert loop of copy_db_to_db.  The argument pending is
the part of the source result set the cursor has not yet delivered;
fetchmany chunksize is modelled by take C / drop C.  The loop body is
executemany, rows_inserted += len(rows), fetch; the single
destination_conn.commit() after the loop is the final event. -/
def copyDbLoop {α : Type} (C : Nat) (pending dest : List α) (ins : Nat)
    (evs : List DbEvent) : DbCopyResult α :=
  match hrows : pending.take C with
  | [] => ⟨dest, ins, evs ++ [DbEvent.commit]⟩
  | r :: rs =>
    copyDbLoop C (pending.drop C) (dest ++ (r :: rs)) (ins + (r :: rs).length)
      (evs ++ [DbEvent.exec (r :: rs).length])
termination_by pending.length
decreasing_by
  have h1 : pending ≠ [] := by
    intro h
    subst h
    simp at hrows
  have h2 : C ≠ 0 := by
    intro h
    subst h
    simp at hrows
  have h3 := List.length_pos.mpr h1
  simp only [List.length_drop]
  omega

/-- copy_db_to_db, from the truncate step onward (lines 321-340).  The
truncate clears the destination; the initial fetch and the loop are
copyDbLoop. -/
def copyDbToDb {α : Type} (C : Nat) (src : List α) (destinationTruncate : Bool)
    (d0 : List α) : DbCopyResult α :=
  copyDbLoop C src (if destinationTruncate then [] else d0) 0 []

def isExecEvent : DbEvent → Bool
  | DbEvent.exec _ => true
  | DbEvent.commit => false

/-- Reading of the per-chunk-commit discipline claimed by the spec: in
the event trace, every executemany is immediately followed by a
commit. -/
def commitAfterEachExec : List DbEvent → Bool
  | [] => true
  | DbEvent.commit :: rest => commitAfterEachExec rest
  | DbEvent.exec _ :: DbEvent.commit :: rest => commitAfterEachExec rest
  | DbEvent.exec _ :: _ => false

/-- Invariant of the chunk loop: it delivers all pending rows in order,
counts them, performs one executemany per nonempty fetch (and nothing
else), and ends with a single commit. -/
theorem copyDbLoop_spec {α : Type} (C : Nat) (hC : 0 < C) :
    ∀ (pending dest : List α) (ins : Nat) (evs : List DbEvent),
      ∃ tail : List DbEvent,
        copyDbLoop C pending dest ins evs =
          ⟨dest ++ pending, ins + pending.length, evs ++ tail ++ [DbEvent.commit]⟩ ∧
        (∀ e ∈ tail, ∃ n, e = DbEvent.exec n) ∧
        tail.length = (pending.length + C - 1) / C := by
  intro pending
  induction' hn : pending.length using Nat.strongRecOn with n ih generalizing pending
  subst hn
  intro dest ins evs
  rw [copyDbLoop]
  split
  case _ hrows =>
    have hp : pending = [] := by
      rcases pending with _ | ⟨a, p⟩
      · rfl
      · rcases C with _ | C
        · omega
        · simp at hrows
    subst hp
    refine ⟨[], by simp, by simp, ?_⟩
    simp only [List.length_nil, Nat.zero_add]
    symm
    exact Nat.div_eq_of_lt (by omega)
  case _ r rs hrows =>
    have hpne : pending ≠ [] := by
      intro h
      subst h
      simp at hrows
    have hlen : 0 < pending.length := List.length_pos.mpr hpne
    have hdrop : (pending.drop C).length < pending.length := by
      rw [List.length_drop]
      omega
    obtain ⟨tail', heq, hall, hlen'⟩ :=
      ih (pending.drop C).length hdrop (pending.drop C) rfl
        (dest ++ (r :: rs)) (ins + (r :: rs).length)
        (evs ++ [DbEvent.exec (r :: rs).length])
    have hlens : (r :: rs).length + (pending.drop C).length = pending.length := by
      rw [← hrows, ← List.length_append, List.take_append_drop]
    refine ⟨DbEvent.exec (r :: rs).length :: tail', ?_, ?_, ?_⟩
    · rw [heq]
      congr 1
      · rw [List.append_assoc, ← hrows, List.take_append_drop]
      · omega
      · simp
    · intro e he
      rcases List.mem_cons.mp he with h | h
      · exact ⟨(r :: rs).length, h⟩
      · exact hall e h
    · have hrlen : 0 < (r :: rs).length := by simp
      have hdl : (pending.drop C).length = pending.length - C := by
        simp
      simp only [List.length_cons, hlen', hdl]
      rcases Nat.lt_or_ge pending.length (C + 1) with hle | hgt
      · have hz : pending.length - C = 0 := by omega
        rw [hz]
        have l1 : (0 + C - 1) / C = 0 := Nat.div_eq_of_lt (by omega)
        have l2 : (pending.length + C - 1) / C = 1 := by
          apply Nat.div_eq_of_lt_le
          · omega
          · omega
        omega
      · have heq2 : pending.length + C - 1 = (pending.length - C + C - 1) + C := by
          omega
        rw [heq2, Nat.add_div_right _ hC]

/-! ### Model of copy_by_key_interval (fast_etl.py lines 632-781)

The source table is a list of (key, row) pairs.  The bounded SELECT
with key_column BETWEEN begin AND end is a filter; the query
select COALESCE(max(key_column), 0) is maxKey.  A read failure of the
interval starting at b is injected by the oracle rf b, a write failure
of the executemany for that interval by wf b.  Each successful
executemany is immediately followed by destination_conn.commit() in
the code, so the accumulated dest list is the committed destination
content.  The liveness sleep (lines 746-751) does not affect data flow
and is not modelled. -/

/-- Rows of the source whose key lies in the closed interval [b, e]:
SELECT cols FROM source WHERE key_column BETWEEN b AND e. -/
def fetchRows {α : Type} (src : List (Int × α)) (b e : Int) : List (Int × α) :=
  src.filter (fun p => b ≤ p.1 && p.1 ≤ e)

/-- The query select COALESCE(max(key_column), 0) FROM source_table
(lines 740-742): 0 on an empty table, the maximum key otherwise. -/
def maxKey {α : Type} : List (Int × α) → Int
  | [] => 0
  | (k, _) :: rest => rest.foldl (fun acc p => max acc p.1) k

/-- Result of copy_by_key_interval: committed destination content, the
returned (status, next_key) pair, the rows_inserted counter, and the
trace of intervals whose loop iteration completed its write step. -/
structure KeyCopyResult (α : Type) : Type where
  dest : List (Int × α)
  success : Bool
  resumeKey : Option Int
  rowsInserted : Nat
  written : List (Int × Int)
deriving DecidableEq, Repr

/-- The while key_begin <= max_id and max_id > 0 loop (lines 745-772).
rows always holds the rows fetched for the current interval
[kb, kb + S - 1].  Iteration: if rows is nonempty, executemany and
commit (on failure return (False, key_begin)); add len(rows); advance
to the next contiguous interval and fetch it (on failure return
(False, new key_begin)).

For key_interval S <= 0 the Python loop never advances past key_begin
and never terminates, so the model guard conjoins 0 < S; every theorem
below is stated for 0 < S, where the model and the code agree. -/
def keyCopyLoop {α : Type} (src : List (Int × α)) (rf wf : Int → Bool)
    (S m : Int) (kb : Int) (rows : List (Int × α)) (dest : List (Int × α))
    (ins : Nat) (tr : List (Int × Int)) : KeyCopyResult α :=
  if h : kb ≤ m ∧ 0 < m ∧ 0 < S then
    if !rows.isEmpty && wf kb then
      ⟨dest, false, some kb, ins, tr⟩
    else
      if rf (kb + S) then
        ⟨dest ++ rows, false, some (kb + S), ins + rows.length,
          tr ++ [(kb, kb + S - 1)]⟩
      else
        keyCopyLoop src rf wf S m (kb + S)
          (fetchRows src (kb + S) (kb + S + S - 1))
          (dest ++ rows) (ins + rows.length) (tr ++ [(kb, kb + S - 1)])
  else ⟨dest, true, none, ins, tr⟩
termination_by (m + 1 - kb).toNat
decreasing_by
  omega

/-- copy_by_key_interval from the truncate step onward (lines 715-781):
optional truncate, initial fetch of [key_start, key_start + S - 1]
(read failure returns (False, key_start)), computation of max_id, then
the transfer loop, final commit, and return (True, None). -/
def copyByKeyInterval {α : Type} (src : List (Int × α)) (rf wf : Int → Bool)
    (keyStart S : Int) (destinationTruncate : Bool) (d0 : List (Int × α)) :
    KeyCopyResult α :=
  let dest := if destinationTruncate then [] else d0
  if rf keyStart then ⟨dest, false, some keyStart, 0, []⟩
  else
    keyCopyLoop src rf wf S (maxKey src) keyStart
      (fetchRows src keyStart (keyStart + S - 1)) dest 0 []

/-- Failure oracle of a run in which no driver exception occurs. -/
def noFail : Int → Bool := fun _ => false

/-- Concatenation of the per-interval fetches the loop would commit in
a failure-free run starting at interval begin kb. -/
def chunksFrom {α : Type} (src : List (Int × α)) (S m kb : Int) :
    List (Int × α) :=
  if h : kb ≤ m ∧ 0 < m ∧ 0 < S then
    fetchRows src kb (kb + S - 1) ++ chunksFrom src S m (kb + S)
  else []
termination_by (m + 1 - kb).toNat
decreasing_by
  omega

/-- Concatenation of the fetches of the first k intervals of width S
starting at kb. -/
def chunksSeg {α : Type} (src : List (Int × α)) (S kb : Int) :
    Nat → List (Int × α)
  | 0 => []
  | k + 1 => fetchRows src kb (kb + S - 1) ++ chunksSeg src S (kb + S) k

/-- The interval trace of a failure-free run starting at kb. -/
def intervalsFrom (S m kb : Int) : List (Int × Int) :=
  if h : kb ≤ m ∧ 0 < m ∧ 0 < S then
    (kb, kb + S - 1) :: intervalsFrom S m (kb + S)
  else []
termination_by (m + 1 - kb).toNat
decreasing_by
  omega

/-! ### Model of copy_by_key_with_retry (fast_etl.py lines 783-870)

The orchestrator calls copy_by_key_interval once, then retries while
the result is a failure and retry <= retries, re-starting from the
returned next_key with truncation forced off.  Each attempt may see
different driver failures, so the oracle pair is indexed by the
attempt number.  The attempts field counts invocations of
copy_by_key_interval. -/

structure RetryResult (α : Type) : Type where
  dest : List (Int × α)
  succeeded : Bool
  nextKey : Option Int
  attempts : Nat
deriving DecidableEq, Repr

/-- The while not succeeded and (retry <= retries) loop (lines
849-864).  On entry the counter retry is incremented and
copy_by_key_interval is re-invoked from next_key with
destination_truncate=False.  In Python next_key is always an int when
succeeded is False; getD 0 makes the model total. -/
def retryLoop {α : Type} (oracles : Nat → (Int → Bool) × (Int → Bool))
    (src : List (Int × α)) (S : Int) (retries retry : Nat)
    (succeeded : Bool) (nextKey : Option Int) (dest : List (Int × α))
    (attempts : Nat) : RetryResult α :=
  if h : succeeded = false ∧ retry ≤ retries then
    let o := oracles attempts
    let r := copyByKeyInterval src o.1 o.2 (nextKey.getD 0) S false dest
    retryLoop oracles src S retries (retry + 1) r.success r.resumeKey r.dest
      (attempts + 1)
  else ⟨dest, succeeded, nextKey, attempts⟩
termination_by retries + 1 - retry
decreasing_by
  omega

/-- copy_by_key_with_retry (lines 836-870): the initial attempt
followed by the retry loop. -/
def copyByKeyWithRetry {α : Type} (oracles : Nat → (Int → Bool) × (Int → Bool))
    (src : List (Int × α)) (keyStart S : Int) (destinationTruncate : Bool)
    (retries : Nat) (d0 : List (Int × α)) : RetryResult α :=
  let o := oracles 0
  let r := copyByKeyInterval src o.1 o.2 keyStart S destinationTruncate d0
  retryLoop oracles src S retries 0 r.success r.resumeKey r.dest 1

/-! ### Model of the incremental sync engine (fast_etl.py lines 354-596)

Strings are assembled exactly as the Python f-strings do (an f-string
is concatenation of its literal segments and interpolated names).
Single quote characters are written with the escape \x27. -/

/-- Zero-padded decimal rendering, as strftime produces for a numeric
field of width w. -/
def zpad (w n : Nat) : String :=
  let s := toString n
  String.mk (List.replicate (w - s.length) (Char.ofNat 48)) ++ s

/-- A Python datetime value, as returned by the database driver for a
timestamp column. -/
structure PyDateTime : Type where
  year : Nat
  month : Nat
  day : Nat
  hour : Nat
  minute : Nat
  second : Nat
  microsecond : Nat
deriving DecidableEq, Repr

/-- Python strftime with the format %Y-%m-%d %H:%M:%S.%f used at lines
377 and 415: four-digit year, two-digit fields, six-digit
microseconds. -/
def PyDateTime.strftimeFull (t : PyDateTime) : String :=
  zpad 4 t.year ++ "-" ++ zpad 2 t.month ++ "-" ++ zpad 2 t.day ++ " " ++
    zpad 2 t.hour ++ ":" ++ zpad 2 t.minute ++ ":" ++ zpad 2 t.second ++
    "." ++ zpad 6 t.microsecond

/-- The Python slice [:-3]: drop the last three code points. -/
def pyDropLast3 (s : String) : String :=
  String.mk s.data.dropLast.dropLast.dropLast

/-- strftime followed by [:-3] (line 415): the six-digit microsecond
field truncated to millisecond precision. -/
def PyDateTime.strftimeMillis (t : PyDateTime) : String :=
  pyDropLast3 t.strftimeFull

/-- A value returned by dest_hook.get_first for a MAX query. -/
inductive DbValue : Type where
  | dt (t : PyDateTime)
  | num (n : Int)
  | txt (s : String)
deriving DecidableEq, Repr

/-- Python str() applied to the value (line 418).  For the dt case the
code path of interest never applies str(), so strftimeFull stands in
for the textual form of a datetime. -/
def DbValue.pyStr : DbValue → String
  | DbValue.num n => toString n
  | DbValue.txt s => s
  | DbValue.dt t => t.strftimeFull

/-- _build_filter_condition (lines 404-421).  The destination query
SELECT MAX(column) FROM table is abstracted by the oracle colMax.  The
date branch is taken whenever a date_column is configured (Python
truthiness of the argument, modelled by Option); the function never
consults the resolved column list.  Calling strftime on a value that
is not a datetime raises in Python, modelled as none. -/
def build_filter_condition (colMax : String → DbValue) (table : String)
    (dateColumn : Option String) (keyColumn : String) :
    Option (String × String) :=
  match dateColumn with
  | some dc =>
    match colMax dc with
    | DbValue.dt t =>
      some (t.strftimeMillis, dc ++ " > \x27" ++ t.strftimeMillis ++ "\x27")
    | _ => none
  | none =>
    some ((colMax keyColumn).pyStr,
      keyColumn ++ " > \x27" ++ (colMax keyColumn).pyStr ++ "\x27")

/-- build_select_sql (lines 78-86). -/
def build_select_sql (source_table : String) (column_list : List String) :
    String :=
  "SELECT " ++ String.intercalate ", " column_list ++ " FROM " ++ source_table

/-- The NOT EXISTS correlated subquery segment of the insert statement
of _build_incremental_sqls (lines 440-442). -/
def notExistsGuard (dest_table key_column : String) : String :=
  "WHERE NOT EXISTS" ++
  "\n            (SELECT 1 FROM " ++ dest_table ++ " AS atual" ++
  "\n                WHERE atual." ++ key_column ++ " = inc." ++
  key_column ++ ")"

/-- _build_incremental_sqls (lines 424-444): the UPDATE statement and
the INSERT ... WHERE NOT EXISTS statement, assembled exactly as the
two f-strings. -/
def build_incremental_sqls (dest_table source_table key_column : String)
    (column_list : List String) : String × String :=
  let colsU := String.intercalate ", "
    (column_list.map (fun col => col ++ " = orig." ++ col))
  let updates_sql :=
    "\n            UPDATE " ++ dest_table ++ " SET " ++ colsU ++
    "\n            FROM " ++ source_table ++ " orig" ++
    "\n            WHERE orig." ++ key_column ++ " = " ++ dest_table ++
    "." ++ key_column ++ "\n            "
  let colsI := String.intercalate ", " column_list
  let inserts_sql :=
    "INSERT INTO " ++ dest_table ++ " (" ++ colsI ++ ")" ++
    "\n            SELECT " ++ colsI ++
    "\n            FROM " ++ source_table ++ " AS inc" ++
    "\n            " ++ notExistsGuard dest_table key_column ++
    "\n            "
  (updates_sql, inserts_sql)

/-- One observable database action of sync_db_2_db: a read-only query,
the staged bulk copy (a copy_db_to_db invocation), or a dest_hook.run
of a mutating statement. -/
inductive SyncEffect : Type where
  | query (sql : String)
  | copyToStaging (destinationTable : String) (selectSql : String)
      (truncate : Bool)
  | runSql (sql : String)
deriving DecidableEq, Repr

/-- The Python arguments of sync_db_2_db that shape its behaviour
(connection ids are absorbed by the oracles). -/
structure SyncArgs : Type where
  table : String
  dateColumn : Option String
  keyColumn : String
  sourceSchema : String
  destinationSchema : String
  incrementSchema : Option String
  syncExclusions : Bool
  sourceExcSchema : String
  sourceExcTable : String
  sourceExcColumn : String
deriving DecidableEq, Repr

/-- The staging table name of sync_db_2_db (lines 514-517): the table
in the increment schema, or destination table plus the suffix
_alteracoes when no increment schema is configured. -/
def incTableName (a : SyncArgs) : String :=
  match a.incrementSchema with
  | some s => s ++ "." ++ a.table
  | none => a.destinationSchema ++ "." ++ a.table ++ "_alteracoes"

/-- sync_db_2_db (lines 446-596) as an effect-trace function.  Oracle
inputs: colList is the destination column list returned by
get_table_cols_name; destRowsCount the destination COUNT(*);
colMax the destination MAX per column; exclusionIds the keys returned
by the deletion-log query; isMssql the destination connection type.
An Except.error carries the message of the raised exception together
with the effects performed before the raise. -/
def syncDb2Db (a : SyncArgs) (colList : List String) (destRowsCount : Nat)
    (colMax : String → DbValue) (exclusionIds : List Int) (isMssql : Bool) :
    Except (String × List SyncEffect) (List SyncEffect) :=
  let source_table_name := a.sourceSchema ++ "." ++ a.table
  let dest_table_name := a.destinationSchema ++ "." ++ a.table
  let inc_table_name := incTableName a
  let evs0 := [SyncEffect.query ("SELECT * FROM " ++ a.destinationSchema ++
      "." ++ a.table ++ " WHERE 1=2"),
    SyncEffect.query ("SELECT COUNT(*) FROM " ++ dest_table_name ++ ";")]
  if destRowsCount = 0 then
    Except.error ("Tabela destino vazia! Utilize carga full!", evs0)
  else
    match build_filter_condition colMax dest_table_name a.dateColumn
        a.keyColumn with
    | none => Except.error ("AttributeError: strftime", evs0)
    | some (refValue, whereCondition) =>
      let select_sql := build_select_sql source_table_name colList
      let select_diff := select_sql ++ " WHERE " ++ whereCondition
      let reindex_sql := if isMssql then
          "ALTER INDEX ALL ON " ++ inc_table_name ++ " REBUILD"
        else
          "REINDEX TABLE " ++ inc_table_name
      let sqls := build_incremental_sqls dest_table_name inc_table_name
        a.keyColumn colList
      let exclEffects := if a.syncExclusions then
          [SyncEffect.query ("SELECT " ++ a.keyColumn ++
            "\n                             FROM " ++ a.sourceExcSchema ++
            "." ++ a.sourceExcTable ++
            "\n                             WHERE " ++ a.sourceExcColumn ++
            " > \x27" ++ refValue ++ "\x27\n                          ")] ++
          (if exclusionIds.isEmpty then []
           else [SyncEffect.runSql ("\n                DELETE FROM " ++
             dest_table_name ++ "\n                WHERE " ++ a.keyColumn ++
             " IN (" ++
             String.intercalate ", " (exclusionIds.map toString) ++
             ")\n            ")])
        else []
      Except.ok (evs0 ++
        [SyncEffect.query ("SELECT COUNT(*) FROM " ++ source_table_name ++
          " WHERE " ++ whereCondition ++ ";"),
         SyncEffect.copyToStaging inc_table_name select_diff true,
         SyncEffect.runSql reindex_sql,
         SyncEffect.runSql sqls.1,
         SyncEffect.runSql sqls.2] ++ exclEffects)

/-! ### Relational semantics of the generated merge statements

The staging and destination tables are keyed row lists.  These two
functions give the standard meaning of the UPDATE and of the
INSERT ... WHERE NOT EXISTS statements produced by
_build_incremental_sqls, executed in that order by sync_db_2_db. -/

/-- UPDATE dest SET cols FROM staging orig WHERE orig.key = dest.key:
every destination row whose key has a staging row takes that staging
row content. -/
def applyUpdate {β : Type} (dest staging : List (Int × β)) :
    List (Int × β) :=
  dest.map (fun p =>
    match staging.lookup p.1 with
    | some v => (p.1, v)
    | none => p)

/-- INSERT INTO dest SELECT cols FROM staging inc WHERE NOT EXISTS
(SELECT 1 FROM dest atual WHERE atual.key = inc.key): append the
staging rows whose key is absent from the destination. -/
def applyInsertMissing {β : Type} (dest staging : List (Int × β)) :
    List (Int × β) :=
  dest ++ staging.filter (fun q => !(dest.any (fun p => p.1 == q.1)))

/-- The merge phase of sync_db_2_db: UPDATE first, then the guarded
INSERT against the updated destination. -/
def mergeStagingIntoDest {β : Type} (dest staging : List (Int × β)) :
    List (Int × β) :=
  applyInsertMissing (applyUpdate dest staging) staging

/-! ### Loop invariants of the key-interval engine -/

/-- A failure-free run of the transfer loop commits exactly the
concatenated per-interval fetches, in order, returns (True, None), and
its interval trace is intervalsFrom. -/
theorem keyCopyLoop_clean {α : Type} (src : List (Int × α)) (rf wf : Int → Bool)
    (hrf : ∀ b, rf b = false) (hwf : ∀ b, wf b = false) (S m : Int) :
    ∀ (kb : Int) (dest : List (Int × α)) (ins : Nat) (tr : List (Int × Int)),
      keyCopyLoop src rf wf S m kb (fetchRows src kb (kb + S - 1)) dest ins tr =
        ⟨dest ++ chunksFrom src S m kb, true, none,
          ins + (chunksFrom src S m kb).length, tr ++ intervalsFrom S m kb⟩ := by
  intro kb
  induction' hn : (m + 1 - kb).toNat using Nat.strongRecOn with n ih generalizing kb
  intro dest ins tr
  rw [keyCopyLoop, chunksFrom, intervalsFrom]
  by_cases h : kb ≤ m ∧ 0 < m ∧ 0 < S
  · rw [dif_pos h, dif_pos h, dif_pos h]
    rw [hwf kb, hrf (kb + S)]
    simp only [Bool.and_false, Bool.false_eq_true, if_false]
    have hlt : (m + 1 - (kb + S)).toNat < n := by omega
    rw [ih _ hlt (kb + S) rfl]
    simp [List.append_assoc]
    omega
  · rw [dif_neg h, dif_neg h, dif_neg h]
    simp

/-- A failing run of the transfer loop stops at an interval start
kb + k * S whose read or write oracle fired, having committed exactly
the fetches of the first k intervals, all of whose starts satisfied
the loop condition. -/
theorem keyCopyLoop_fail {α : Type} (src : List (Int × α)) (rf wf : Int → Bool)
    (S m : Int) :
    ∀ (kb : Int) (dest : List (Int × α)) (ins : Nat) (tr : List (Int × Int))
      (r : KeyCopyResult α),
      keyCopyLoop src rf wf S m kb (fetchRows src kb (kb + S - 1)) dest ins tr = r →
      r.success = false →
      ∃ k : Nat,
        r.resumeKey = some (kb + (k : Int) * S) ∧
        (rf (kb + (k : Int) * S) = true ∨ wf (kb + (k : Int) * S) = true) ∧
        r.dest = dest ++ chunksSeg src S kb k ∧
        (∀ i : Nat, i < k → kb + (i : Int) * S ≤ m ∧ 0 < m) := by
  intro kb
  induction' hn : (m + 1 - kb).toNat using Nat.strongRecOn with n ih generalizing kb
  intro dest ins tr r hr hfail
  rw [keyCopyLoop] at hr
  by_cases h : kb ≤ m ∧ 0 < m ∧ 0 < S
  · rw [dif_pos h] at hr
    by_cases hw : (!(fetchRows src kb (kb + S - 1)).isEmpty
        && wf kb) = true
    · rw [if_pos hw] at hr
      subst hr
      refine ⟨0, by simp, Or.inr (by simpa using ((Bool.and_eq_true _ _).mp hw).2),
        by simp [chunksSeg], ?_⟩
      intro i hi
      exact absurd hi (Nat.not_lt_zero i)
    · rw [if_neg hw] at hr
      by_cases hread : rf (kb + S) = true
      · rw [if_pos hread] at hr
        subst hr
        refine ⟨1, by simp, Or.inl (by simpa using hread), ?_, ?_⟩
        · simp [chunksSeg]
        · intro i hi
          have : i = 0 := by omega
          subst this
          simp
          exact ⟨h.1, h.2.1⟩
      · rw [if_neg hread] at hr
        have hlt : (m + 1 - (kb + S)).toNat < n := by omega
        obtain ⟨k, h1, h2, h3, h4⟩ := ih _ hlt (kb + S) rfl
          (dest ++ fetchRows src kb (kb + S - 1))
          (ins + (fetchRows src kb (kb + S - 1)).length)
          (tr ++ [(kb, kb + S - 1)]) r hr hfail
        refine ⟨k + 1, ?_, ?_, ?_, ?_⟩
        · rw [h1]
          congr 1
          push_cast
          ring
        · have : kb + S + (k : Int) * S = kb + ((k : Int) + 1) * S := by ring
          rw [this] at h2
          simpa using h2
        · rw [h3, chunksSeg]
          simp [List.append_assoc]
        · intro i hi
          rcases Nat.eq_zero_or_pos i with h0 | hpos
          · subst h0
            simp
            exact ⟨h.1, h.2.1⟩
          · obtain ⟨j, rfl⟩ := Nat.exists_eq_add_of_le hpos
            have hj := h4 j (by omega)
            constructor
            · have : kb + ((j + 1 : Nat) : Int) * S = kb + S + (j : Int) * S := by
                push_cast
                ring
              rw [Nat.add_comm 1 j, this]
              exact hj.1
            · exact hj.2
  · rw [dif_neg h] at hr
    subst hr
    simp at hfail

/-- If the transfer loop reports success the returned next_key is
None, whatever the fetched rows and oracles are. -/
theorem keyCopyLoop_success_none {α : Type} (src : List (Int × α))
    (rf wf : Int → Bool) (S m : Int) :
    ∀ (kb : Int) (rows dest : List (Int × α)) (ins : Nat)
      (tr : List (Int × Int)),
      (keyCopyLoop src rf wf S m kb rows dest ins tr).success = true →
      (keyCopyLoop src rf wf S m kb rows dest ins tr).resumeKey = none := by
  intro kb
  induction' hn : (m + 1 - kb).toNat using Nat.strongRecOn with n ih generalizing kb
  intro rows dest ins tr hs
  rw [keyCopyLoop] at hs ⊢
  by_cases h : kb ≤ m ∧ 0 < m ∧ 0 < S
  · rw [dif_pos h] at hs ⊢
    by_cases hw : (!rows.isEmpty && wf kb) = true
    · rw [if_pos hw] at hs
      simp at hs
    · rw [if_neg hw] at hs ⊢
      by_cases hread : rf (kb + S) = true
      · rw [if_pos hread] at hs
        simp at hs
      · rw [if_neg hread] at hs ⊢
        have hlt : (m + 1 - (kb + S)).toNat < n := by omega
        exact ih _ hlt (kb + S) rfl _ _ _ _ hs
  · rw [dif_neg h]

/-- chunksFrom splits across the first k intervals, provided each of
their starts satisfies the loop condition. -/
theorem chunksFrom_split {α : Type} (src : List (Int × α)) (S m : Int) :
    ∀ (k : Nat) (kb : Int),
      (∀ i : Nat, i < k → kb + (i : Int) * S ≤ m ∧ 0 < m) → 0 < S →
      chunksFrom src S m kb =
        chunksSeg src S kb k ++ chunksFrom src S m (kb + (k : Int) * S) := by
  intro k
  induction k with
  | zero =>
    intro kb hb hS
    simp [chunksSeg]
  | succ k ihk =>
    intro kb hb hS
    have h0 := hb 0 (by omega)
    simp at h0
    have hseq : ∀ i : Nat, i < k → kb + S + (i : Int) * S ≤ m ∧ 0 < m := by
      intro i hi
      have hbi := hb (i + 1) (by omega)
      have hcast : kb + ((i + 1 : Nat) : Int) * S = kb + S + (i : Int) * S := by
        push_cast
        ring
      exact ⟨by rw [← hcast]; exact hbi.1, hbi.2⟩
    have ih2 := ihk (kb + S) hseq hS
    have harg : kb + ((k + 1 : Nat) : Int) * S = kb + S + (k : Int) * S := by
      push_cast
      ring
    rw [chunksFrom, dif_pos ⟨h0.1, h0.2, hS⟩, chunksSeg, harg, ih2,
      List.append_assoc]

/-- Shape of the interval trace of a failure-free run: the i-th
interval is [kb + iS, kb + iS + S - 1], every visited start is at most
max_id, and the first unvisited start exceeds max_id. -/
theorem intervalsFrom_spec (S m : Int) (hS : 0 < S) (hm : 0 < m) :
    ∀ kb : Int,
      (∀ i : Nat, i < (intervalsFrom S m kb).length →
        (intervalsFrom S m kb).get? i =
          some (kb + (i : Int) * S, kb + (i : Int) * S + S - 1) ∧
        kb + (i : Int) * S ≤ m) ∧
      m < kb + ((intervalsFrom S m kb).length : Int) * S := by
  intro kb
  induction' hn : (m + 1 - kb).toNat using Nat.strongRecOn with n ih generalizing kb
  rw [intervalsFrom]
  by_cases h : kb ≤ m ∧ 0 < m ∧ 0 < S
  · rw [dif_pos h]
    have hlt : (m + 1 - (kb + S)).toNat < n := by omega
    obtain ⟨ih1, ih2⟩ := ih _ hlt (kb + S) rfl
    constructor
    · intro i hi
      rcases Nat.eq_zero_or_pos i with h0 | hpos
      · subst h0
        simp
        exact h.1
      · obtain ⟨j, rfl⟩ := Nat.exists_eq_add_of_le hpos
        rw [Nat.add_comm 1 j]
        simp only [List.length_cons] at hi
        have hj := ih1 j (by omega)
        have hcast : kb + ((j + 1 : Nat) : Int) * S = kb + S + (j : Int) * S := by
          push_cast
          ring
        constructor
        · rw [List.get?_cons_succ, hcast]
          exact hj.1
        · rw [hcast]
          exact hj.2
    · simp only [List.length_cons]
      have hcast : kb + (((intervalsFrom S m (kb + S)).length + 1 : Nat) : Int) * S
          = kb + S + ((intervalsFrom S m (kb + S)).length : Int) * S := by
        push_cast
        ring
      rw [hcast]
      exact ih2
  · rw [dif_neg h]
    constructor
    · intro i hi
      simp at hi
    · simp only [List.length_nil]
      push_cast
      omega

/-- A failure-free copy_by_key_interval run: truncate, then commit all
per-interval fetches, return (True, None). -/
theorem copyByKeyInterval_clean {α : Type} (src : List (Int × α))
    (keyStart S : Int) (tb : Bool) (d0 : List (Int × α)) :
    copyByKeyInterval src noFail noFail keyStart S tb d0 =
      ⟨(if tb then [] else d0) ++ chunksFrom src S (maxKey src) keyStart,
        true, none, (chunksFrom src S (maxKey src) keyStart).length,
        intervalsFrom S (maxKey src) keyStart⟩ := by
  simp only [copyByKeyInterval, noFail, Bool.false_eq_true, if_false]
  rw [keyCopyLoop_clean src noFail noFail (fun _ => rfl) (fun _ => rfl)]
  simp

/-- A failing copy_by_key_interval run stops at interval start
key_start + k * S where an oracle fired, with exactly the first k
interval fetches committed. -/
theorem copyByKeyInterval_fail {α : Type} (src : List (Int × α))
    (rf wf : Int → Bool) (keyStart S : Int) (tb : Bool) (d0 : List (Int × α)) :
    (copyByKeyInterval src rf wf keyStart S tb d0).success = false →
    ∃ k : Nat,
      (copyByKeyInterval src rf wf keyStart S tb d0).resumeKey =
        some (keyStart + (k : Int) * S) ∧
      (rf (keyStart + (k : Int) * S) = true ∨
        wf (keyStart + (k : Int) * S) = true) ∧
      (copyByKeyInterval src rf wf keyStart S tb d0).dest =
        (if tb then [] else d0) ++ chunksSeg src S keyStart k ∧
      (∀ i : Nat, i < k →
        keyStart + (i : Int) * S ≤ maxKey src ∧ 0 < maxKey src) := by
  intro hfail
  simp only [copyByKeyInterval] at hfail ⊢
  by_cases h : rf keyStart = true
  · rw [if_pos h]
    refine ⟨0, by simp, Or.inl (by simpa using h), by simp [chunksSeg], ?_⟩
    intro i hi
    exact absurd hi (Nat.not_lt_zero i)
  · rw [if_neg h] at hfail ⊢
    exact keyCopyLoop_fail src rf wf S (maxKey src) keyStart _ 0 [] _ rfl hfail

/-- The retry loop performs at most retries + 1 - retry further
invocations of copy_by_key_interval. -/
theorem retryLoop_attempts {α : Type}
    (oracles : Nat → (Int → Bool) × (Int → Bool)) (src : List (Int × α))
    (S : Int) (retries : Nat) :
    ∀ (retry : Nat) (succeeded : Bool) (nextKey : Option Int)
      (dest : List (Int × α)) (attempts : Nat),
      (retryLoop oracles src S retries retry succeeded nextKey dest
        attempts).attempts ≤ attempts + (retries + 1 - retry) := by
  intro retry
  induction' hn : retries + 1 - retry using Nat.strongRecOn with n ih
    generalizing retry
  subst hn
  intro succeeded nextKey dest attempts
  rw [retryLoop]
  by_cases h : succeeded = false ∧ retry ≤ retries
  · rw [dif_pos h]
    have hlt : retries + 1 - (retry + 1) < retries + 1 - retry := by omega
    have := ih _ hlt (retry + 1) rfl
      (copyByKeyInterval src (oracles attempts).1 (oracles attempts).2
        (nextKey.getD 0) S false dest).success
      (copyByKeyInterval src (oracles attempts).1 (oracles attempts).2
        (nextKey.getD 0) S false dest).resumeKey
      (copyByKeyInterval src (oracles attempts).1 (oracles attempts).2
        (nextKey.getD 0) S false dest).dest
      (attempts + 1)
    calc (retryLoop oracles src S retries (retry + 1) _ _ _
          (attempts + 1)).attempts
        ≤ (attempts + 1) + (retries + 1 - (retry + 1)) := this
      _ ≤ attempts + (retries + 1 - retry) := by omega
  · rw [dif_neg h]
    exact Nat.le_add_right _ _

/-! ### Lemmas about the merge semantics -/

/-- The UPDATE statement does not change the destination key column. -/
theorem applyUpdate_keys {β : Type} (dest staging : List (Int × β)) :
    (applyUpdate dest staging).map Prod.fst = dest.map Prod.fst := by
  induction dest with
  | nil => rfl
  | cons p rest ihp =>
    simp only [applyUpdate, List.map_cons] at ihp ⊢
    rw [ihp]
    cases staging.lookup p.1 <;> simp

/-- On a staging table with nodup keys, lookup finds the member. -/
theorem lookup_of_mem_of_nodup {β : Type} (staging : List (Int × β))
    (hs : (staging.map Prod.fst).Nodup) (k : Int) (v : β)
    (hm : (k, v) ∈ staging) : staging.lookup k = some v := by
  induction staging with
  | nil => simp at hm
  | cons q rest ihq =>
    obtain ⟨a, b⟩ := q
    simp only [List.map_cons, List.nodup_cons] at hs
    rcases List.mem_cons.mp hm with h | h
    · injection h with h1 h2
      subst h1
      subst h2
      simp [List.lookup]
    · have hka : (k == a) = false := by
        apply beq_eq_false_iff_ne.mpr
        intro he
        subst he
        exact hs.1 (List.mem_map_of_mem Prod.fst h)
      simp only [List.lookup, hka]
      exact ihq hs.2 h

/-- A staged row whose key exists in the destination is present in the
updated destination. -/
theorem applyUpdate_mem {β : Type} (dest staging : List (Int × β))
    (hs : (staging.map Prod.fst).Nodup) (k : Int) (v : β)
    (hm : (k, v) ∈ staging) (hk : k ∈ dest.map Prod.fst) :
    (k, v) ∈ applyUpdate dest staging := by
  obtain ⟨p, hp, hfst⟩ := List.mem_map.mp hk
  have hl : staging.lookup p.1 = some v := by
    rw [hfst]
    exact lookup_of_mem_of_nodup staging hs k v hm
  apply List.mem_map.mpr
  exact ⟨p, hp, by rw [hl]; simp [hfst]⟩

/-- Correctness of the update-then-insert merge on keyed tables with
nodup keys: the merged table still has nodup keys (no staged key is
both updated and inserted), and every staged row is present. -/
theorem mergeStagingIntoDest_spec {β : Type} (dest staging : List (Int × β))
    (hd : (dest.map Prod.fst).Nodup) (hs : (staging.map Prod.fst).Nodup) :
    ((mergeStagingIntoDest dest staging).map Prod.fst).Nodup ∧
    (∀ k v, (k, v) ∈ staging → (k, v) ∈ mergeStagingIntoDest dest staging) := by
  have hu : (applyUpdate dest staging).map Prod.fst = dest.map Prod.fst :=
    applyUpdate_keys dest staging
  constructor
  · simp only [mergeStagingIntoDest, applyInsertMissing, List.map_append]
    rw [List.nodup_append]
    refine ⟨by rw [hu]; exact hd, ?_, ?_⟩
    · exact hs.sublist (List.Sublist.map Prod.fst (List.filter_sublist staging))
    · intro x hx hx2
      obtain ⟨q, hq, hqx⟩ := List.mem_map.mp hx2
      have hqf := (List.mem_filter.mp hq).2
      rw [Bool.not_eq_true'] at hqf
      obtain ⟨p, hp, hpx⟩ := List.mem_map.mp hx
      have hfa := List.any_eq_false.mp hqf p hp
      apply absurd hfa
      simp [hpx, hqx]
  · intro k v hm
    simp only [mergeStagingIntoDest, applyInsertMissing]
    by_cases hk : k ∈ dest.map Prod.fst
    · exact List.mem_append_left _ (applyUpdate_mem dest staging hs k v hm hk)
    · apply List.mem_append_right
      apply List.mem_filter.mpr
      refine ⟨hm, ?_⟩
      rw [Bool.not_eq_true']
      apply List.any_eq_false.mpr
      intro p hp
      intro hbeq
      have hpe : p.1 = k := by simpa using hbeq
      apply hk
      rw [← hu, ← hpe]
      exact List.mem_map_of_mem Prod.fst hp

/-! ### The claims -/

/-- C1: for every chunk size C > 0 and source result set of N rows,
copy_db_to_db inserts exactly N rows into the destination (appended in
source order after the optional truncate), performs exactly
ceil(N / C) executemany round-trips (one per nonempty fetch), and the
loop ends with the fetch that returns zero rows. -/
theorem claim1_chunked_copy {α : Type} (C : Nat) (hC : 0 < C) (src : List α)
    (tb : Bool) (d0 : List α) :
    (copyDbToDb C src tb d0).rowsInserted = src.length ∧
    ((copyDbToDb C src tb d0).events.filter
      (fun e => isExecEvent e)).length = (src.length + C - 1) / C ∧
    (copyDbToDb C src tb d0).dest = (if tb then [] else d0) ++ src := by
  obtain ⟨tail, heq, hall, hlen⟩ :=
    copyDbLoop_spec C hC src (if tb then [] else d0) 0 []
  unfold copyDbToDb
  rw [heq]
  have hfilter : tail.filter (fun e => isExecEvent e) = tail := by
    apply List.filter_eq_self.mpr
    intro e he
    obtain ⟨n, rfl⟩ := hall e he
    rfl
  refine ⟨by simp, ?_, rfl⟩
  show (([] ++ tail ++ [DbEvent.commit]).filter (fun e => isExecEvent e)).length
    = (src.length + C - 1) / C
  rw [List.nil_append, List.filter_append, hfilter]
  simp [isExecEvent, hlen]

/-- Witness for C1: chunk size 2, four source rows: 4 rows inserted in
2 executemany round-trips. -/
theorem claim1_witness :
    0 < 2 ∧
    ((copyDbToDb 2 [10, 20, 30, 40] true ([] : List Nat)).rowsInserted
        = [10, 20, 30, 40].length ∧
     ((copyDbToDb 2 [10, 20, 30, 40] true ([] : List Nat)).events.filter
        (fun e => isExecEvent e)).length
        = ([10, 20, 30, 40].length + 2 - 1) / 2 ∧
     (copyDbToDb 2 [10, 20, 30, 40] true ([] : List Nat)).dest
        = (if true then [] else []) ++ [10, 20, 30, 40]) :=
  ⟨by decide, claim1_chunked_copy 2 (by decide) [10, 20, 30, 40] true []⟩

/-- C5 counterexample: with retries = 0 and a persistently failing
read, copy_by_key_with_retry invokes copy_by_key_interval twice (the
initial attempt and one retry), exceeding the claimed bound
retries + 1 = 1.  The loop condition retry <= retries admits one more
retry than the claim allows. -/
theorem claim5_counterexample :
    (copyByKeyWithRetry (fun _ => (fun _ => true, fun _ => false))
      ([] : List (Int × Int)) 0 10 true 0 []).attempts = 2 ∧
    ¬ ((copyByKeyWithRetry (fun _ => (fun _ => true, fun _ => false))
      ([] : List (Int × Int)) 0 10 true 0 []).attempts ≤ 0 + 1) := by
  have h2 : (copyByKeyWithRetry (fun _ => (fun _ => true, fun _ => false))
      ([] : List (Int × Int)) 0 10 true 0 []).attempts = 2 := by
    simp only [copyByKeyWithRetry, copyByKeyInterval, if_true]
    rw [retryLoop, dif_pos ⟨rfl, Nat.le_refl 0⟩]
    simp only [copyByKeyInterval, if_true, Option.getD_some]
    rw [retryLoop, dif_neg (by omega)]
  exact ⟨h2, by rw [h2]; omega⟩

/-- C5 amended: copy_by_key_with_retry invokes copy_by_key_interval at
most retries + 2 times in total: the initial attempt plus at most
retries + 1 retries, since the retry loop runs while
retry <= retries. -/
theorem claim5_attempt_bound {α : Type}
    (oracles : Nat → (Int → Bool) × (Int → Bool)) (src : List (Int × α))
    (keyStart S : Int) (tb : Bool) (retries : Nat) (d0 : List (Int × α)) :
    (copyByKeyWithRetry oracles src keyStart S tb retries d0).attempts ≤
      retries + 2 := by
  simp only [copyByKeyWithRetry]
  refine le_trans (retryLoop_attempts oracles src S retries 0 _ _ _ 1) ?_
  omega

/-- C6 counterexample: with four source rows and chunk size 2,
copy_db_to_db issues no commit at the chunk boundaries: its event
trace is two executemany calls followed by the single final commit,
violating the claimed commit-per-chunk discipline. -/
theorem claim6_counterexample :
    commitAfterEachExec
      (copyDbToDb 2 [10, 20, 30, 40] true ([] : List Nat)).events = false := by
  obtain ⟨tail, heq, hall, hlen⟩ :=
    copyDbLoop_spec 2 (by decide) [10, 20, 30, 40]
      (if true then [] else ([] : List Nat)) 0 []
  unfold copyDbToDb
  rw [heq]
  norm_num at hlen
  rcases tail with _ | ⟨e1, tail⟩
  · simp at hlen
  rcases tail with _ | ⟨e2, tail⟩
  · simp at hlen
  rcases tail with _ | ⟨e3, tail⟩
  · obtain ⟨n1, rfl⟩ := hall e1 (by simp)
    obtain ⟨n2, rfl⟩ := hall e2 (by simp)
    rfl
  · simp at hlen

/-- C6 amended: in copy_db_to_db the destination commit happens only
once, after the fetch/insert loop has consumed the whole result set;
no commit is issued at chunk boundaries. -/
theorem claim6_commit_only_at_end {α : Type} (C : Nat) (hC : 0 < C)
    (src : List α) (tb : Bool) (d0 : List α) :
    ∃ execs : List DbEvent,
      (copyDbToDb C src tb d0).events = execs ++ [DbEvent.commit] ∧
      ∀ e ∈ execs, ∃ n, e = DbEvent.exec n := by
  obtain ⟨tail, heq, hall, -⟩ :=
    copyDbLoop_spec C hC src (if tb then [] else d0) 0 []
  unfold copyDbToDb
  rw [heq]
  exact ⟨tail, by simp, hall⟩

/-- Witness for the amended C6 at chunk size 3 and five rows. -/
theorem claim6_witness :
    ∃ execs : List DbEvent,
      (copyDbToDb 3 [1, 2, 3, 4, 5] false ([0] : List Nat)).events
        = execs ++ [DbEvent.commit] ∧
      ∀ e ∈ execs, ∃ n, e = DbEvent.exec n :=
  claim6_commit_only_at_end 3 (by decide) [1, 2, 3, 4, 5] false [0]

/-- C10: when COALESCE(MAX(key_column), 0) is 0 the transfer loop body
never runs: copy_by_key_interval returns (True, None) with zero rows
inserted and an empty interval trace, and the rows fetched by the
initial bounded SELECT never reach the destination, which keeps its
post-truncate content. -/
theorem claim10_zero_max_key {α : Type} (src : List (Int × α))
    (keyStart S : Int) (tb : Bool) (d0 : List (Int × α))
    (hm : maxKey src = 0) :
    copyByKeyInterval src noFail noFail keyStart S tb d0 =
      ⟨(if tb then [] else d0), true, none, 0, []⟩ := by
  have hg : ¬(keyStart ≤ (0 : Int) ∧ (0 : Int) < 0 ∧ 0 < S) := by
    rintro ⟨-, h2, -⟩
    exact lt_irrefl 0 h2
  rw [copyByKeyInterval_clean, hm, chunksFrom, dif_neg hg, intervalsFrom,
    dif_neg hg]
  simp

/-- Witness for C10: a source whose only key is 0 (so the COALESCE
maximum is 0); its fetched row is discarded and the destination stays
empty. -/
theorem claim10_witness :
    maxKey [((0 : Int), (7 : Int))] = 0 ∧
    copyByKeyInterval [((0 : Int), (7 : Int))] noFail noFail 0 10 false [] =
      ⟨(if false then [] else []), true, none, 0, []⟩ :=
  ⟨by decide, claim10_zero_max_key _ 0 10 false [] (by decide)⟩

/-- C2: for every key_start and interval size S > 0, a failure-free
copy_by_key_interval over a source with positive maximum key processes
the intervals [key_start + iS, key_start + iS + S - 1]: contiguous,
non-overlapping, of width S, with begins rising by S from key_start;
every processed begin is at most the maximum key, and the loop stops
at the first begin exceeding it. -/
theorem claim2_key_intervals {α : Type} (src : List (Int × α))
    (keyStart S : Int) (tb : Bool) (d0 : List (Int × α))
    (hS : 0 < S) (hm : 0 < maxKey src) :
    (∀ i : Nat,
      i < (copyByKeyInterval src noFail noFail keyStart S tb d0).written.length →
      (copyByKeyInterval src noFail noFail keyStart S tb d0).written.get? i =
        some (keyStart + (i : Int) * S, keyStart + (i : Int) * S + S - 1) ∧
      keyStart + (i : Int) * S ≤ maxKey src) ∧
    maxKey src < keyStart +
      (((copyByKeyInterval src noFail noFail keyStart S tb
        d0).written.length : Int)) * S := by
  rw [copyByKeyInterval_clean]
  exact intervalsFrom_spec S (maxKey src) hS hm keyStart

/-- Witness for C2, the spec scenario key_start = 0, S = 10, source
maximum key 25: the written intervals are [0,9], [10,19], [20,29], and
the loop stops because 30 > 25. -/
theorem claim2_witness :
    (copyByKeyInterval [((1 : Int), (0 : Int)), ((25 : Int), (0 : Int))]
        noFail noFail 0 10 true []).written
      = [((0 : Int), (9 : Int)), (10, 19), (20, 29)] ∧
    maxKey [((1 : Int), (0 : Int)), ((25 : Int), (0 : Int))] <
      0 + (((copyByKeyInterval [((1 : Int), (0 : Int)), ((25 : Int), (0 : Int))]
        noFail noFail 0 10 true []).written.length : Int)) * 10 := by
  have hmax : maxKey [((1 : Int), (0 : Int)), ((25 : Int), (0 : Int))] = 25 := by
    decide
  constructor
  · rw [copyByKeyInterval_clean, hmax]
    rw [intervalsFrom, dif_pos (by norm_num)]
    rw [intervalsFrom, dif_pos (by norm_num)]
    rw [intervalsFrom, dif_pos (by norm_num)]
    rw [intervalsFrom, dif_neg (by norm_num)]
    norm_num
  · exact (claim2_key_intervals [((1 : Int), (0 : Int)), ((25 : Int), (0 : Int))]
      0 10 true [] (by decide) (by rw [hmax]; decide)).2

/-- C3: if copy_by_key_interval fails returning (False, resume_key),
re-running it from key_start = resume_key with destination_truncate
off and no further failures completes successfully and leaves the
destination exactly as a single uninterrupted run would have: every
committed interval is written exactly once across the resume. -/
theorem claim3_resume_equivalence {α : Type} (src : List (Int × α))
    (rf wf : Int → Bool) (keyStart S : Int) (tb : Bool) (d0 : List (Int × α))
    (rk : Int) (hS : 0 < S)
    (hfail : (copyByKeyInterval src rf wf keyStart S tb d0).success = false)
    (hkey : (copyByKeyInterval src rf wf keyStart S tb d0).resumeKey = some rk) :
    (copyByKeyInterval src noFail noFail rk S false
        (copyByKeyInterval src rf wf keyStart S tb d0).dest).dest =
      (copyByKeyInterval src noFail noFail keyStart S tb d0).dest ∧
    (copyByKeyInterval src noFail noFail rk S false
        (copyByKeyInterval src rf wf keyStart S tb d0).dest).success = true := by
  obtain ⟨k, h1, h2, h3, h4⟩ :=
    copyByKeyInterval_fail src rf wf keyStart S tb d0 hfail
  have hrk : rk = keyStart + (k : Int) * S := by
    rw [hkey] at h1
    exact Option.some.inj h1
  refine ⟨?_, by rw [copyByKeyInterval_clean]⟩
  rw [copyByKeyInterval_clean, copyByKeyInterval_clean, h3, hrk]
  show ((if tb then [] else d0) ++ chunksSeg src S keyStart k) ++
      chunksFrom src S (maxKey src) (keyStart + (k : Int) * S) =
    (if tb then [] else d0) ++ chunksFrom src S (maxKey src) keyStart
  rw [List.append_assoc,
    ← chunksFrom_split src S (maxKey src) k keyStart h4 hS]

/-- Witness for C3: interval size 2 over keys 1..5, write failure on
the interval starting at 2; the failed run returns (False, 2), and the
resumed run reproduces the uninterrupted destination. -/
theorem claim3_witness :
    0 < 2 ∧
    (copyByKeyInterval [((1 : Int), (1 : Int)), (2, 2), (3, 3), (4, 4), (5, 5)]
        noFail (fun b => b == 2) 0 2 true []).success = false ∧
    (copyByKeyInterval [((1 : Int), (1 : Int)), (2, 2), (3, 3), (4, 4), (5, 5)]
        noFail (fun b => b == 2) 0 2 true []).resumeKey = some 2 ∧
    ((copyByKeyInterval [((1 : Int), (1 : Int)), (2, 2), (3, 3), (4, 4), (5, 5)]
        noFail noFail 2 2 false
        (copyByKeyInterval [((1 : Int), (1 : Int)), (2, 2), (3, 3), (4, 4), (5, 5)]
          noFail (fun b => b == 2) 0 2 true []).dest).dest =
      (copyByKeyInterval [((1 : Int), (1 : Int)), (2, 2), (3, 3), (4, 4), (5, 5)]
        noFail noFail 0 2 true []).dest ∧
     (copyByKeyInterval [((1 : Int), (1 : Int)), (2, 2), (3, 3), (4, 4), (5, 5)]
        noFail noFail 2 2 false
        (copyByKeyInterval [((1 : Int), (1 : Int)), (2, 2), (3, 3), (4, 4), (5, 5)]
          noFail (fun b => b == 2) 0 2 true []).dest).success = true) := by
  have hfail : (copyByKeyInterval
      [((1 : Int), (1 : Int)), (2, 2), (3, 3), (4, 4), (5, 5)]
      noFail (fun b => b == 2) 0 2 true []).success = false ∧
      (copyByKeyInterval
      [((1 : Int), (1 : Int)), (2, 2), (3, 3), (4, 4), (5, 5)]
      noFail (fun b => b == 2) 0 2 true []).resumeKey = some 2 := by
    simp only [copyByKeyInterval, noFail, Bool.false_eq_true, if_false]
    rw [keyCopyLoop, dif_pos (by norm_num [maxKey])]
    rw [if_neg (by norm_num [fetchRows]), if_neg (by norm_num [noFail])]
    rw [keyCopyLoop, dif_pos (by norm_num [maxKey])]
    rw [if_pos (by norm_num [fetchRows])]
    exact ⟨rfl, rfl⟩
  exact ⟨by decide, hfail.1, hfail.2,
    claim3_resume_equivalence
      [((1 : Int), (1 : Int)), (2, 2), (3, 3), (4, 4), (5, 5)]
      noFail (fun b => b == 2) 0 2 true [] 2 (by decide) hfail.1 hfail.2⟩

/-- C4: read or write failures inside the transfer loop are caught and
reported through the return value: a failed run returns
(False, begin) where begin is the start key of the interval whose read
or write failed (always an interval start key_start + kS), a
successful run returns (True, None), and a run without any failure
succeeds. -/
theorem claim4_failure_contract {α : Type} (src : List (Int × α))
    (rf wf : Int → Bool) (keyStart S : Int) (tb : Bool) (d0 : List (Int × α))
    (hS : 0 < S) :
    ((copyByKeyInterval src rf wf keyStart S tb d0).success = false →
      ∃ k : Nat,
        (copyByKeyInterval src rf wf keyStart S tb d0).resumeKey =
          some (keyStart + (k : Int) * S) ∧
        (rf (keyStart + (k : Int) * S) = true ∨
          wf (keyStart + (k : Int) * S) = true)) ∧
    ((copyByKeyInterval src rf wf keyStart S tb d0).success = true →
      (copyByKeyInterval src rf wf keyStart S tb d0).resumeKey = none) ∧
    ((∀ b, rf b = false) → (∀ b, wf b = false) →
      (copyByKeyInterval src rf wf keyStart S tb d0).success = true ∧
      (copyByKeyInterval src rf wf keyStart S tb d0).resumeKey = none) := by
  refine ⟨?_, ?_, ?_⟩
  · intro hfail
    obtain ⟨k, h1, h2, -, -⟩ :=
      copyByKeyInterval_fail src rf wf keyStart S tb d0 hfail
    exact ⟨k, h1, h2⟩
  · intro hsucc
    simp only [copyByKeyInterval] at hsucc ⊢
    by_cases h : rf keyStart = true
    · rw [if_pos h] at hsucc
      simp at hsucc
    · rw [if_neg h] at hsucc ⊢
      exact keyCopyLoop_success_none src rf wf S (maxKey src) keyStart
        _ _ _ _ hsucc
  · intro hrf hwf
    have hre : rf = noFail := funext (fun b => hrf b)
    have hwe : wf = noFail := funext (fun b => hwf b)
    subst hre
    subst hwe
    rw [copyByKeyInterval_clean]
    exact ⟨rfl, rfl⟩

/-- Witness for C4: a failure-free run over one row succeeds with
next_key None. -/
theorem claim4_witness :
    (copyByKeyInterval [((1 : Int), (0 : Int))] noFail noFail 0 5 true
      []).success = true ∧
    (copyByKeyInterval [((1 : Int), (0 : Int))] noFail noFail 0 5 true
      []).resumeKey = none :=
  (claim4_failure_contract [((1 : Int), (0 : Int))] noFail noFail 0 5 true []
    (by decide)).2.2 (fun _ => rfl) (fun _ => rfl)

/-- C7: in the merge phase of sync_db_2_db the generated UPDATE runs
strictly before the generated INSERT (adjacent, in that order, in the
effect trace); the INSERT carries the NOT EXISTS correlated subquery
on the key column as a literal segment; and under the merge semantics
each staged key ends up in the destination exactly once: updated in
place or inserted, never both. -/
theorem claim7_merge_order_and_guard (a : SyncArgs) (colList : List String)
    (destRowsCount : Nat) (colMax : String → DbValue)
    (exclusionIds : List Int) (isMssql : Bool) {β : Type}
    (dest staging : List (Int × β)) (rv wc : String)
    (hn : ¬destRowsCount = 0)
    (hbf : build_filter_condition colMax
      (a.destinationSchema ++ "." ++ a.table) a.dateColumn a.keyColumn =
      some (rv, wc))
    (hd : (dest.map Prod.fst).Nodup) (hs : (staging.map Prod.fst).Nodup) :
    (∃ pre post : List SyncEffect,
      syncDb2Db a colList destRowsCount colMax exclusionIds isMssql =
        Except.ok (pre ++
          [SyncEffect.runSql (build_incremental_sqls
            (a.destinationSchema ++ "." ++ a.table) (incTableName a)
            a.keyColumn colList).1,
           SyncEffect.runSql (build_incremental_sqls
            (a.destinationSchema ++ "." ++ a.table) (incTableName a)
            a.keyColumn colList).2] ++ post)) ∧
    (∃ pre post : String,
      (build_incremental_sqls (a.destinationSchema ++ "." ++ a.table)
        (incTableName a) a.keyColumn colList).2 =
        pre ++ notExistsGuard (a.destinationSchema ++ "." ++ a.table)
          a.keyColumn ++ post) ∧
    ((mergeStagingIntoDest dest staging).map Prod.fst).Nodup ∧
    (∀ k v, (k, v) ∈ staging → (k, v) ∈ mergeStagingIntoDest dest staging) := by
  refine ⟨?_, ?_, (mergeStagingIntoDest_spec dest staging hd hs).1,
    (mergeStagingIntoDest_spec dest staging hd hs).2⟩
  · simp only [syncDb2Db]
    rw [if_neg hn, hbf]
    exact ⟨[SyncEffect.query ("SELECT * FROM " ++ a.destinationSchema ++
        "." ++ a.table ++ " WHERE 1=2"),
      SyncEffect.query ("SELECT COUNT(*) FROM " ++
        (a.destinationSchema ++ "." ++ a.table) ++ ";"),
      SyncEffect.query ("SELECT COUNT(*) FROM " ++
        (a.sourceSchema ++ "." ++ a.table) ++ " WHERE " ++ wc ++ ";"),
      SyncEffect.copyToStaging (incTableName a)
        (build_select_sql (a.sourceSchema ++ "." ++ a.table) colList ++
          " WHERE " ++ wc) true,
      SyncEffect.runSql (if isMssql then
          "ALTER INDEX ALL ON " ++ incTableName a ++ " REBUILD"
        else
          "REINDEX TABLE " ++ incTableName a)],
      (if a.syncExclusions then
        [SyncEffect.query ("SELECT " ++ a.keyColumn ++
          "\n                             FROM " ++ a.sourceExcSchema ++
          "." ++ a.sourceExcTable ++
          "\n                             WHERE " ++ a.sourceExcColumn ++
          " > \x27" ++ rv ++ "\x27\n                          ")] ++
        (if exclusionIds.isEmpty then []
         else [SyncEffect.runSql ("\n                DELETE FROM " ++
           (a.destinationSchema ++ "." ++ a.table) ++
           "\n                WHERE " ++ a.keyColumn ++ " IN (" ++
           String.intercalate ", " (exclusionIds.map toString) ++
           ")\n            ")])
      else []), rfl⟩
  · exact ⟨"INSERT INTO " ++ (a.destinationSchema ++ "." ++ a.table) ++
      " (" ++ String.intercalate ", " colList ++ ")" ++
      "\n            SELECT " ++ String.intercalate ", " colList ++
      "\n            FROM " ++ incTableName a ++ " AS inc" ++
      "\n            ", "\n            ", rfl⟩

/-- Witness for C7: a two-column table with one destination row and
two staged rows (one matching key, one new). -/
theorem claim7_witness :
    (∃ pre post : List SyncEffect,
      syncDb2Db ⟨"t", none, "id", "src", "dst", some "stg", false, "", "", ""⟩
          ["id", "x"] 3 (fun _ => DbValue.num 9) [] true =
        Except.ok (pre ++
          [SyncEffect.runSql (build_incremental_sqls
            ("dst" ++ "." ++ "t")
            (incTableName ⟨"t", none, "id", "src", "dst", some "stg", false,
              "", "", ""⟩) "id" ["id", "x"]).1,
           SyncEffect.runSql (build_incremental_sqls
            ("dst" ++ "." ++ "t")
            (incTableName ⟨"t", none, "id", "src", "dst", some "stg", false,
              "", "", ""⟩) "id" ["id", "x"]).2] ++ post)) ∧
    (∃ pre post : String,
      (build_incremental_sqls ("dst" ++ "." ++ "t")
        (incTableName ⟨"t", none, "id", "src", "dst", some "stg", false,
          "", "", ""⟩) "id" ["id", "x"]).2 =
        pre ++ notExistsGuard ("dst" ++ "." ++ "t") "id" ++ post) ∧
    ((mergeStagingIntoDest [((1 : Int), (10 : Int))]
      [((1 : Int), (11 : Int)), (2, 12)]).map Prod.fst).Nodup ∧
    (∀ k v, (k, v) ∈ [((1 : Int), (11 : Int)), (2, 12)] →
      (k, v) ∈ mergeStagingIntoDest [((1 : Int), (10 : Int))]
        [((1 : Int), (11 : Int)), (2, 12)]) :=
  claim7_merge_order_and_guard
    ⟨"t", none, "id", "src", "dst", some "stg", false, "", "", ""⟩
    ["id", "x"] 3 (fun _ => DbValue.num 9) [] true
    [((1 : Int), (10 : Int))] [((1 : Int), (11 : Int)), (2, 12)]
    "9" ("id > \x279\x27") (by decide) (by decide) (by decide) (by decide)

/-- C8 counterexample: with resolved destination columns id, nome (the
configured date column dataalteracao is not among them), the filter is
still built on dataalteracao, not on the key column as the claim
requires: _build_filter_condition never consults the resolved column
list. -/
theorem claim8_counterexample :
    build_filter_condition
      (fun c => if c = "dataalteracao"
        then DbValue.dt ⟨2024, 1, 2, 3, 4, 5, 678901⟩ else DbValue.num 7)
      "dst.t" (some "dataalteracao") "id" =
      some ("2024-01-02 03:04:05.678",
        "dataalteracao > \x272024-01-02 03:04:05.678\x27") ∧
    "dataalteracao" ∉ (["id", "nome"] : List String) ∧
    build_filter_condition
      (fun c => if c = "dataalteracao"
        then DbValue.dt ⟨2024, 1, 2, 3, 4, 5, 678901⟩ else DbValue.num 7)
      "dst.t" (some "dataalteracao") "id" ≠
      some ("7", "id > \x277\x27") := by
  exact ⟨by decide, by decide, by decide⟩

/-- C8 amended: the configured date column, when present, is always
the reference column regardless of the destination's resolved column
list; otherwise the key column is used.  The maximum (a destination
MAX query, abstracted by colMax) is rendered with strftime to
millisecond precision in the date case and with str otherwise, and the
predicate is the exclusive bound column > quoted maximum. -/
theorem claim8_filter_condition_amended (colMax : String → DbValue)
    (table : String) (keyColumn : String) (dc : String) (t : PyDateTime)
    (hdt : colMax dc = DbValue.dt t) :
    build_filter_condition colMax table (some dc) keyColumn =
      some (t.strftimeMillis,
        dc ++ " > \x27" ++ t.strftimeMillis ++ "\x27") ∧
    build_filter_condition colMax table none keyColumn =
      some ((colMax keyColumn).pyStr,
        keyColumn ++ " > \x27" ++ (colMax keyColumn).pyStr ++ "\x27") := by
  constructor
  · simp only [build_filter_condition]
    rw [hdt]
  · rfl

/-- Witness for the amended C8 at a concrete datetime maximum. -/
theorem claim8_witness :
    build_filter_condition
      (fun _ => DbValue.dt ⟨2024, 1, 2, 3, 4, 5, 678901⟩) "dst.t"
      (some "dataalteracao") "id" =
      some ((PyDateTime.mk 2024 1 2 3 4 5 678901).strftimeMillis,
        "dataalteracao" ++ " > \x27" ++
          (PyDateTime.mk 2024 1 2 3 4 5 678901).strftimeMillis ++ "\x27") ∧
    build_filter_condition
      (fun _ => DbValue.dt ⟨2024, 1, 2, 3, 4, 5, 678901⟩) "dst.t"
      none "id" =
      some (((fun _ => DbValue.dt
          (PyDateTime.mk 2024 1 2 3 4 5 678901)) "id").pyStr,
        "id" ++ " > \x27" ++ ((fun _ => DbValue.dt
          (PyDateTime.mk 2024 1 2 3 4 5 678901)) "id").pyStr ++ "\x27") :=
  claim8_filter_condition_amended
    (fun _ => DbValue.dt ⟨2024, 1, 2, 3, 4, 5, 678901⟩) "dst.t" "id"
    "dataalteracao" (PyDateTime.mk 2024 1 2 3 4 5 678901) rfl

/-- C9: sync_db_2_db raises the fatal empty-destination error when the
destination row count is zero, after only the two read-only probe
queries, before any staging copy, reindex, merge statement, or delete
propagation; when the count is nonzero this check passes and the run
produces its effect trace. -/
theorem claim9_empty_destination_guard (a : SyncArgs) (colList : List String)
    (destRowsCount : Nat) (colMax : String → DbValue)
    (exclusionIds : List Int) (isMssql : Bool) (rv wc : String)
    (hbf : build_filter_condition colMax
      (a.destinationSchema ++ "." ++ a.table) a.dateColumn a.keyColumn =
      some (rv, wc)) :
    (destRowsCount = 0 →
      syncDb2Db a colList destRowsCount colMax exclusionIds isMssql =
        Except.error ("Tabela destino vazia! Utilize carga full!",
          [SyncEffect.query ("SELECT * FROM " ++ a.destinationSchema ++
            "." ++ a.table ++ " WHERE 1=2"),
           SyncEffect.query ("SELECT COUNT(*) FROM " ++
            (a.destinationSchema ++ "." ++ a.table) ++ ";")])) ∧
    (¬destRowsCount = 0 →
      ∃ t, syncDb2Db a colList destRowsCount colMax exclusionIds isMssql =
        Except.ok t) := by
  constructor
  · intro h0
    simp only [syncDb2Db]
    rw [if_pos h0]
  · intro hn
    simp only [syncDb2Db]
    rw [if_neg hn, hbf]
    exact ⟨_, rfl⟩

/-- Witness for C9: an empty destination, with the raise occurring
after the two probe queries only. -/
theorem claim9_witness :
    syncDb2Db ⟨"t", none, "id", "src", "dst", none, false, "", "", ""⟩
        ["id"] 0 (fun _ => DbValue.num 5) [] true =
      Except.error ("Tabela destino vazia! Utilize carga full!",
        [SyncEffect.query ("SELECT * FROM " ++ "dst" ++ "." ++ "t" ++
          " WHERE 1=2"),
         SyncEffect.query ("SELECT COUNT(*) FROM " ++
          ("dst" ++ "." ++ "t") ++ ";")]) :=
  (claim9_empty_destination_guard
    ⟨"t", none, "id", "src", "dst", none, false, "", "", ""⟩
    ["id"] 0 (fun _ => DbValue.num 5) [] true "5" ("id > \x275\x27")
    (by decide)).1 rfl

end FastETL
